import Mathlib

/-!
Verification of the Repository Resolution & Reconciliation Core of
project-man against its specification.

The Rust sources are shallowly embedded: timestamps (`chrono::DateTime<Utc>`)
become abstract `Nat` ticks, the filesystem becomes an explicit
`String → Bool` existence predicate for directories plus a
`String → Option WorkspaceRegistry` store for parsed registry documents
(serde_yaml round-trips the plain record fields faithfully, so a file's
content is modelled as the parsed document), and `HashMap<String, _>` becomes
an association list with unique keys together with lookup/insert/update
operations that mirror the `HashMap` calls made by the source.
-/

namespace ProjectMan

/-- Timestamps (`chrono::DateTime<Utc>`) modelled as abstract ticks. -/
abbrev Timestamp := Nat

/-- Embeds `RepositoryConfig` from src/config/workspace.rs. -/
structure RepositoryConfig where
  path : String
  url : String
  added_at : Timestamp
  last_sync : Option Timestamp
  tags : List String
deriving DecidableEq

/-- Embeds `WorkspaceRegistry` from src/config/workspace.rs; the
`HashMap<String, RepositoryConfig>` is modelled as an association list with
unique keys. -/
structure WorkspaceRegistry where
  version : String
  created_at : Timestamp
  updated_at : Timestamp
  repositories : List (String × RepositoryConfig)
deriving DecidableEq

/-- `HashMap::get` on the association list. -/
def lookupRepo : List (String × RepositoryConfig) → String → Option RepositoryConfig
  | [], _ => none
  | (k, v) :: rest, n => if k = n then some v else lookupRepo rest n

/-- `HashMap::insert` on the association list: replaces the binding when the
key is present, otherwise appends it. -/
def insertRepo : List (String × RepositoryConfig) → String → RepositoryConfig → List (String × RepositoryConfig)
  | [], k, v => [(k, v)]
  | (k0, v0) :: rest, k, v =>
    if k0 = k then (k, v) :: rest else (k0, v0) :: insertRepo rest k v

/-- `HashMap::get_mut` followed by `repo.last_sync = Some(now)`: rewrites the
binding for `n` (keys are unique, so at most one binding changes). -/
def setLastSync : List (String × RepositoryConfig) → String → Timestamp →
    List (String × RepositoryConfig)
  | [], _, _ => []
  | (k, v) :: rest, n, now =>
    if k = n then (k, { v with last_sync := some now }) :: setLastSync rest n now
    else (k, v) :: setLastSync rest n now

/-- Embeds `WorkspaceRegistry::new`. -/
def WorkspaceRegistry.mkNew (now : Timestamp) : WorkspaceRegistry :=
  { version := "1.0", created_at := now, updated_at := now, repositories := [] }

/-- Embeds `WorkspaceRegistry::add_repository` (src/config/workspace.rs lines
78-81): inserts unconditionally and advances `updated_at`. -/
def addRepository (reg : WorkspaceRegistry) (name : String) (cfg : RepositoryConfig)
    (now : Timestamp) : WorkspaceRegistry :=
  { reg with repositories := insertRepo reg.repositories name cfg, updated_at := now }

/-- Embeds `WorkspaceRegistry::update_last_sync` as invoked from
src/commands/sync.rs: the `Err(RepositoryNotFound)` branch is only logged by
the caller, so the absent-name case leaves the registry unchanged. -/
def updateLastSync (reg : WorkspaceRegistry) (name : String) (now : Timestamp) :
    WorkspaceRegistry :=
  match lookupRepo reg.repositories name with
  | some _ =>
    { reg with repositories := setLastSync reg.repositories name now, updated_at := now }
  | none => reg

/-- `PathBuf::join` for the relative paths appearing in this program. -/
def joinPath (a b : String) : String := a ++ "/" ++ b

/-- The fixed registry file name used by load/save. -/
def registryFileName : String := "project-man.yml"

/-- The errors reachable from the embedded operations. -/
inductive PMError where
  | workspaceNotFound
  | git (msg : String)
deriving DecidableEq

/-- The store of parsed registry documents, keyed by file path. -/
abbrev FileStore := String → Option WorkspaceRegistry

/-- Embeds `WorkspaceRegistry::load_from_workspace` (src/config/workspace.rs
lines 36-59): errors when the workspace directory is absent, returns a fresh
registry when no registry file exists, and otherwise parses the file and
retains only the records whose resolved directory exists on disk. -/
def loadFromWorkspace (ws : String) (dirExists : String → Bool) (files : FileStore)
    (now : Timestamp) : Except PMError WorkspaceRegistry :=
  if dirExists ws = false then .error .workspaceNotFound
  else
    match files (joinPath ws registryFileName) with
    | none => .ok (WorkspaceRegistry.mkNew now)
    | some reg =>
      .ok { reg with
              repositories :=
                reg.repositories.filter fun kv => dirExists (joinPath ws kv.2.path) }

/-- Embeds `WorkspaceRegistry::save` (src/config/workspace.rs lines 61-76):
errors when the workspace directory is absent, otherwise stamps `updated_at`
and writes the serialized registry to the registry file path. -/
def saveRegistry (ws : String) (dirExists : String → Bool) (files : FileStore)
    (reg : WorkspaceRegistry) (now : Timestamp) :
    Except PMError (WorkspaceRegistry × FileStore) :=
  if dirExists ws = false then .error .workspaceNotFound
  else
    let reg' := { reg with updated_at := now }
    .ok (reg', fun p => if p = joinPath ws registryFileName then some reg' else files p)

/-- `relative_path.replace("/", "_")` from src/commands/add.rs line 14. -/
def replaceSlashes (s : String) : String :=
  ⟨s.data.map fun c => if c = '/' then '_' else c⟩

/-- Outcome of the `add` command flow. -/
inductive AddOutcome where
  | refusedNameExists
  | refusedDirExists
  | cloneFailed
  | added
deriving DecidableEq

/-- Embeds the registry-affecting flow of `commands::add::execute`
(src/commands/add.rs): refuse (printing a message and returning `Ok`) when
the derived name is already registered, refuse when the target directory
already exists on disk, propagate a clone failure, and otherwise register a
fresh record built by `RepositoryConfig::new` and return the updated
registry. -/
def addExecute (reg : WorkspaceRegistry) (dirExists : String → Bool) (ws : String)
    (url relativePath : String) (cloneOk : Bool) (now : Timestamp) :
    AddOutcome × WorkspaceRegistry :=
  let repoName := replaceSlashes relativePath
  if (lookupRepo reg.repositories repoName).isSome then (.refusedNameExists, reg)
  else if dirExists (joinPath ws relativePath) then (.refusedDirExists, reg)
  else if cloneOk = false then (.cloneFailed, reg)
  else (.added, addRepository reg repoName
    { path := relativePath, url := url, added_at := now, last_sync := none, tags := [] } now)

/-- Concrete directory predicate for the C1 counterexample: the workspace
directory exists but the record's checkout directory does not. -/
def c1Dirs : String → Bool := fun p => p == "w"

/-- Concrete registry for the C1 counterexample: one record whose resolved
directory is absent from `c1Dirs`. -/
def c1Reg : WorkspaceRegistry :=
  { version := "1.0", created_at := 0, updated_at := 0,
    repositories := [("a", { path := "x/a", url := "uA", added_at := 0,
                             last_sync := none, tags := ["t"] })] }

/-- Save followed by load for the C1 counterexample, observing the record for
name "a". -/
def c1RoundTrip : Except PMError (Option RepositoryConfig) :=
  match saveRegistry "w" c1Dirs (fun _ => none) c1Reg 5 with
  | .error e => .error e
  | .ok (_, files) =>
    match loadFromWorkspace "w" c1Dirs files 7 with
    | .error e => .error e
    | .ok reg => .ok (lookupRepo reg.repositories "a")

/-- C1 counterexample: a registry holding a record whose resolved directory is
absent on disk does not round-trip: `load_from_workspace` prunes the record,
so the loaded `records` content differs from the saved one at name "a". -/
theorem save_load_drops_absent_record :
    c1RoundTrip = .ok none ∧ lookupRepo c1Reg.repositories "a" ≠ none :=
  ⟨rfl, by decide⟩

/-- C1 (amended): if the workspace directory exists and every record's
resolved directory exists on disk, then `save` followed by `load` succeeds
and returns a registry with exactly the same `records` content (indeed the
same `repositories` list, same `version` and `created_at`). -/
theorem save_load_roundTrip (ws : String) (dirExists : String → Bool)
    (files : FileStore) (reg : WorkspaceRegistry) (now later : Timestamp)
    (hws : dirExists ws = true)
    (hall : ∀ kv ∈ reg.repositories, dirExists (joinPath ws kv.2.path) = true) :
    ∃ reg' files', saveRegistry ws dirExists files reg now = .ok (reg', files') ∧
      loadFromWorkspace ws dirExists files' later = .ok { reg with updated_at := now } := by
  refine ⟨{ reg with updated_at := now },
    fun p => if p = joinPath ws registryFileName
             then some { reg with updated_at := now } else files p, ?_, ?_⟩
  · simp [saveRegistry, hws]
  · have hfilter : reg.repositories.filter
        (fun kv => dirExists (joinPath ws kv.2.path)) = reg.repositories :=
      List.filter_eq_self.mpr (fun kv hkv => hall kv hkv)
    simp [loadFromWorkspace, hws, hfilter]

/-- C1 witness instantiation data: both the workspace and the record's
directory exist. -/
def c1wDirs : String → Bool := fun p => p == "w" || p == "w/x/a"

/-- Witness for the amended C1 theorem at a concrete registry and filesystem. -/
theorem save_load_roundTrip_witness :
    ∃ reg' files', saveRegistry "w" c1wDirs (fun _ => none) c1Reg 5 = .ok (reg', files') ∧
      loadFromWorkspace "w" c1wDirs files' 7 = .ok { c1Reg with updated_at := 5 } :=
  save_load_roundTrip "w" c1wDirs (fun _ => none) c1Reg 5 7 (by decide) (by decide)

/-- Record for the C2 counterexample. -/
def c2r1 : RepositoryConfig :=
  { path := "p1", url := "u1", added_at := 0, last_sync := none, tags := [] }

/-- A second record colliding with `c2r1` on `path`. -/
def c2r2 : RepositoryConfig :=
  { path := "p1", url := "u2", added_at := 1, last_sync := none, tags := [] }

/-- Registry already holding name "a" for the C2 counterexample. -/
def c2Reg : WorkspaceRegistry :=
  { version := "1.0", created_at := 0, updated_at := 0, repositories := [("a", c2r1)] }

/-- C2 counterexample: `WorkspaceRegistry::add_repository` performs no checks
at all. Adding under an existing name silently replaces the record (no
`DuplicateName` failure), and adding a second name whose `path` resolves to
the same directory succeeds, leaving both colliding records in the registry
(no `PathCollision` failure). -/
theorem add_repository_replaces_and_collides :
    (addRepository c2Reg "a" c2r2 5).repositories = [("a", c2r2)] ∧
      lookupRepo (addRepository c2Reg "b" c2r2 5).repositories "a" = some c2r1 ∧
      lookupRepo (addRepository c2Reg "b" c2r2 5).repositories "b" = some c2r2 ∧
      c2r1.path = c2r2.path := by
  decide

/-- C2 (amended): the registry-level `add_repository` checks nothing; the
guards live in the `add` command, which refuses — by printing a message and
returning success, not by raising `DuplicateName`/`PathCollision` errors —
when the derived name is already registered or when the target directory
already exists on disk, leaving the registry unchanged in both cases; in
particular a collision with an existing record whose directory is on disk is
refused through the directory check. Only when the name is fresh, the target
directory absent and the clone succeeds is the new record registered. -/
theorem add_execute_guards (reg : WorkspaceRegistry) (dirExists : String → Bool)
    (ws url relativePath : String) (cloneOk : Bool) (now : Timestamp) :
    ((lookupRepo reg.repositories (replaceSlashes relativePath)).isSome = true →
      addExecute reg dirExists ws url relativePath cloneOk now = (.refusedNameExists, reg)) ∧
    (∀ n c, (n, c) ∈ reg.repositories → joinPath ws c.path = joinPath ws relativePath →
      dirExists (joinPath ws c.path) = true →
      (addExecute reg dirExists ws url relativePath cloneOk now).2 = reg) ∧
    (lookupRepo reg.repositories (replaceSlashes relativePath) = none →
      dirExists (joinPath ws relativePath) = false → cloneOk = true →
      addExecute reg dirExists ws url relativePath cloneOk now =
        (.added, addRepository reg (replaceSlashes relativePath)
          { path := relativePath, url := url, added_at := now,
            last_sync := none, tags := [] } now)) := by
  refine ⟨fun hname => ?_, fun n c _ hpath hdir => ?_, fun hname hdir hclone => ?_⟩
  · simp [addExecute, hname]
  · unfold addExecute
    rcases hsome : (lookupRepo reg.repositories (replaceSlashes relativePath)).isSome with _ | _
    · rw [hpath] at hdir
      simp [hsome, hdir]
    · simp [hsome]
  · simp [addExecute, hname, hdir, hclone]

/-- Witness for the amended C2 theorem: instantiates all three guard cases at
concrete inputs. -/
theorem add_execute_guards_witness :
    (addExecute c2Reg (fun _ => false) "w" "u2" "a" true 5 = (.refusedNameExists, c2Reg)) ∧
    ((addExecute c2Reg (fun p => p == "w/p1") "w" "u2" "p1" true 5).2 = c2Reg) ∧
    (addExecute c2Reg (fun _ => false) "w" "u2" "q" true 5 =
      (.added, addRepository c2Reg "q"
        { path := "q", url := "u2", added_at := 5, last_sync := none, tags := [] } 5)) := by
  refine ⟨?_, ?_, ?_⟩
  · exact (add_execute_guards c2Reg (fun _ => false) "w" "u2" "a" true 5).1 (by decide)
  · exact (add_execute_guards c2Reg (fun p => p == "w/p1") "w" "u2" "p1" true 5).2.1
      "a" c2r1 (by decide) (by decide) (by decide)
  · exact (add_execute_guards c2Reg (fun _ => false) "w" "u2" "q" true 5).2.2
      (by decide) (by decide) rfl

/-- Boolean test that `p` is a prefix of `l` (over characters). -/
def listPrefixB : List Char → List Char → Bool
  | [], _ => true
  | _ :: _, [] => false
  | a :: as, b :: bs => a == b && listPrefixB as bs

/-- Boolean test that `p` occurs contiguously inside `l`; Rust's
`str::contains` with a string pattern. -/
def listInfixB : List Char → List Char → Bool
  | p, [] => p.isEmpty
  | p, b :: bs => listPrefixB p (b :: bs) || listInfixB p bs

/-- Rust `str::contains` with a string pattern: substring containment. -/
def strContains (s pat : String) : Bool := listInfixB pat.data s.data

/-- Splits character data at newline characters (auxiliary for `rustLines`). -/
def splitLinesAux : List Char → List Char → List (List Char)
  | [], acc => [acc.reverse]
  | c :: rest, acc =>
    if c = '\n' then acc.reverse :: splitLinesAux rest []
    else splitLinesAux rest (c :: acc)

/-- Drops one trailing carriage return from a line, as Rust `str::lines`
does for `\r\n` endings. -/
def stripTrailCR (l : List Char) : List Char :=
  match l.reverse with
  | '\r' :: rest => rest.reverse
  | _ => l

/-- Rust `str::lines`: split at `\n`, treat a final line ending as optional,
and strip a trailing `\r` from each line. -/
def rustLines (s : String) : List (List Char) :=
  let parts := splitLinesAux s.data []
  let parts :=
    match parts.reverse with
    | [] :: rest => rest.reverse
    | _ => parts
  parts.map stripTrailCR

/-- Embeds `SyncResult` from src/git/mod.rs. -/
inductive SyncResult where
  | upToDate
  | updated (commitsPulled : Nat)
  | conflict (ahead behind : Nat)
deriving DecidableEq

/-- Captured output of the `git pull --ff-only` subprocess: exit status
success flag plus the stdout and stderr text. -/
structure ProcOutput where
  success : Bool
  stdout : String
  stderr : String
deriving DecidableEq

/-- The line filter of src/git/mod.rs lines 67-69: a line counts as a
ref-update line when it contains both "->" and "/". -/
def isRefUpdateLine (l : List Char) : Bool :=
  listInfixB "->".data l && listInfixB "/".data l

/-- The commit count computed by `sync_repository`: the number of stdout
lines that contain both "->" and "/". -/
def countRefLines (stdout : String) : Nat :=
  ((rustLines stdout).filter isRefUpdateLine).length

/-- Embeds the output classification of `GitManager::sync_repository`
(src/git/mod.rs lines 50-78), given the captured subprocess output. -/
def syncClassify (out : ProcOutput) : Except String SyncResult :=
  if out.success then
    if strContains out.stdout "Already up to date" then .ok .upToDate
    else .ok (.updated (countRefLines out.stdout))
  else if strContains out.stderr "diverged" || strContains out.stderr "non-fast-forward" then
    .ok (.conflict 0 0)
  else
    .error ("Git pull failed: " ++ out.stderr)

/-- C5: `sync_repository` classifies the subprocess result exactly as
specified: a successful pull reporting "Already up to date" is `UpToDate`; a
successful pull otherwise is `Updated` with count equal to the number of
ref-update lines in the output; a rejected update whose diagnostics mention
diverged histories (or a non-fast-forward) is `Conflict` with ahead and
behind left as 0; any other non-zero exit is a failure carrying the raw
stderr diagnostic text. -/
theorem sync_repository_classification (out : ProcOutput) :
    (out.success = true → strContains out.stdout "Already up to date" = true →
      syncClassify out = .ok .upToDate) ∧
    (out.success = true → strContains out.stdout "Already up to date" = false →
      syncClassify out = .ok (.updated (countRefLines out.stdout))) ∧
    (out.success = false →
      (strContains out.stderr "diverged" = true ∨
        strContains out.stderr "non-fast-forward" = true) →
      syncClassify out = .ok (.conflict 0 0)) ∧
    (out.success = false → strContains out.stderr "diverged" = false →
      strContains out.stderr "non-fast-forward" = false →
      syncClassify out = .error ("Git pull failed: " ++ out.stderr)) := by
  refine ⟨fun h1 h2 => ?_, fun h1 h2 => ?_, fun h1 h2 => ?_, fun h1 h2 h3 => ?_⟩
  · simp [syncClassify, h1, h2]
  · simp [syncClassify, h1, h2]
  · rcases h2 with h2 | h2 <;> simp [syncClassify, h1, h2]
  · simp [syncClassify, h1, h2, h3]

/-- A successful pull output whose stdout carries exactly two ref-update
lines. -/
def c5TwoRefOut : ProcOutput :=
  { success := true,
    stdout := "Updating 111..222\nFast-forward\n   111..222  main -> origin/main\n * [new branch] dev -> origin/dev\n",
    stderr := "" }

/-- Witness for C5: the four classification cases at concrete subprocess
outputs; the `Updated` case uses an output carrying exactly two ref-update
lines and yields count 2. -/
theorem sync_repository_classification_witness :
    (syncClassify ⟨true, "Already up to date.\n", ""⟩ = .ok .upToDate) ∧
    (syncClassify c5TwoRefOut = .ok (.updated 2)) ∧
    (syncClassify ⟨false, "", "hint: your branches have diverged"⟩ = .ok (.conflict 0 0)) ∧
    (syncClassify ⟨false, "", "fatal: unable to access remote"⟩ =
      .error ("Git pull failed: " ++ "fatal: unable to access remote")) := by
  refine ⟨?_, ?_, ?_, ?_⟩
  · exact (sync_repository_classification _).1 rfl (by decide)
  · have h := (sync_repository_classification c5TwoRefOut).2.1 rfl (by decide)
    have hc : countRefLines c5TwoRefOut.stdout = 2 := by decide
    rw [hc] at h
    exact h
  · exact (sync_repository_classification _).2.2.1 rfl (Or.inl (by decide))
  · exact (sync_repository_classification _).2.2.2 rfl (by decide) (by decide)

/-- Running state of the batch sync loop of `commands::sync::execute`
(src/commands/sync.rs lines 45-83): the success and error counters plus the
in-memory registry. -/
structure SyncState where
  successCount : Nat
  errorCount : Nat
  registry : WorkspaceRegistry

/-- One iteration of the batch sync loop: a repository whose directory is
absent is reported and counted in `error_count`; otherwise the pull outcome
is folded in — `UpToDate` and `Updated` increment `success_count` (only
`Updated` refreshes the record's `last_sync`), `Conflict` and a failed pull
increment `error_count`. -/
def syncStep (ws : String) (dirExists : String → Bool)
    (probe : String → Except String SyncResult) (now : Timestamp)
    (st : SyncState) (e : String × RepositoryConfig) : SyncState :=
  let fullPath := joinPath ws e.2.path
  if dirExists fullPath = false then { st with errorCount := st.errorCount + 1 }
  else
    match probe fullPath with
    | .ok .upToDate => { st with successCount := st.successCount + 1 }
    | .ok (.updated _) =>
      { st with successCount := st.successCount + 1,
                registry := updateLastSync st.registry e.1 now }
    | .ok (.conflict _ _) => { st with errorCount := st.errorCount + 1 }
    | .error _ => { st with errorCount := st.errorCount + 1 }

/-- The batch sync loop folded over the selected repositories in order. -/
def syncLoop (ws : String) (dirExists : String → Bool)
    (probe : String → Except String SyncResult) (now : Timestamp)
    (repos : List (String × RepositoryConfig)) (st : SyncState) : SyncState :=
  repos.foldl (syncStep ws dirExists probe now) st

/-- Result of a whole `sync` command run. -/
structure SyncRunResult where
  successCount : Nat
  errorCount : Nat
  registry : WorkspaceRegistry
  files : FileStore
  saveAttempted : Bool

/-- Embeds `commands::sync::execute` over an already-selected batch: fold the
loop, then save the registry exactly when `success_count > 0`
(src/commands/sync.rs lines 85-88). -/
def syncRun (ws : String) (dirExists : String → Bool)
    (probe : String → Except String SyncResult) (files : FileStore)
    (reg : WorkspaceRegistry) (now : Timestamp)
    (repos : List (String × RepositoryConfig)) : Except PMError SyncRunResult :=
  let st := syncLoop ws dirExists probe now repos ⟨0, 0, reg⟩
  if 0 < st.successCount then
    match saveRegistry ws dirExists files st.registry now with
    | .ok (reg', files') => .ok ⟨st.successCount, st.errorCount, reg', files', true⟩
    | .error e => .error e
  else .ok ⟨st.successCount, st.errorCount, st.registry, files, false⟩

/-- Pull outcomes that the loop counts as successes. -/
def isSuccessOutcome : Except String SyncResult → Bool
  | .ok .upToDate => true
  | .ok (.updated _) => true
  | _ => false

/-- Pull outcomes that the loop counts as failures. -/
def isFailureOutcome : Except String SyncResult → Bool
  | .ok (.conflict _ _) => true
  | .error _ => true
  | _ => false

/-- Pull outcomes that refresh `last_sync`. -/
def isUpdatedOutcome : Except String SyncResult → Bool
  | .ok (.updated _) => true
  | _ => false

/-- An entry counts as a success: its directory exists and the pull outcome
was `UpToDate` or `Updated`. -/
def entrySucceeds (ws : String) (dirExists : String → Bool)
    (probe : String → Except String SyncResult) (e : String × RepositoryConfig) : Bool :=
  dirExists (joinPath ws e.2.path) && isSuccessOutcome (probe (joinPath ws e.2.path))

/-- An entry counts as a failure: its directory is missing, or the pull
outcome was `Conflict` or a failed pull. -/
def entryFails (ws : String) (dirExists : String → Bool)
    (probe : String → Except String SyncResult) (e : String × RepositoryConfig) : Bool :=
  if dirExists (joinPath ws e.2.path) = false then true
  else isFailureOutcome (probe (joinPath ws e.2.path))

/-- An entry refreshes the `last_sync` of records named `name`: it carries
that name, its directory exists, and the pull outcome was `Updated`. -/
def entryTouches (ws : String) (dirExists : String → Bool)
    (probe : String → Except String SyncResult) (name : String)
    (e : String × RepositoryConfig) : Bool :=
  e.1 == name && dirExists (joinPath ws e.2.path) &&
    isUpdatedOutcome (probe (joinPath ws e.2.path))

theorem syncLoop_successCount (ws : String) (dirExists : String → Bool)
    (probe : String → Except String SyncResult) (now : Timestamp)
    (repos : List (String × RepositoryConfig)) (st : SyncState) :
    (syncLoop ws dirExists probe now repos st).successCount =
      st.successCount + repos.countP (entrySucceeds ws dirExists probe) := by
  induction repos generalizing st with
  | nil => simp [syncLoop]
  | cons e rest ih =>
    rw [syncLoop, List.foldl_cons, ← syncLoop, ih, List.countP_cons]
    unfold syncStep entrySucceeds
    rcases hd : dirExists (joinPath ws e.2.path) with _ | _
    · simp [hd]
    · rcases hp : probe (joinPath ws e.2.path) with msg | r
      · simp [hd, hp, isSuccessOutcome]
      · cases r <;> simp [hd, hp, isSuccessOutcome] <;> omega

theorem syncLoop_errorCount (ws : String) (dirExists : String → Bool)
    (probe : String → Except String SyncResult) (now : Timestamp)
    (repos : List (String × RepositoryConfig)) (st : SyncState) :
    (syncLoop ws dirExists probe now repos st).errorCount =
      st.errorCount + repos.countP (entryFails ws dirExists probe) := by
  induction repos generalizing st with
  | nil => simp [syncLoop]
  | cons e rest ih =>
    rw [syncLoop, List.foldl_cons, ← syncLoop, ih, List.countP_cons]
    unfold syncStep entryFails
    rcases hd : dirExists (joinPath ws e.2.path) with _ | _
    · simp [hd]
      omega
    · rcases hp : probe (joinPath ws e.2.path) with msg | r
      · simp [hd, hp, isFailureOutcome]
        omega
      · cases r with
        | upToDate =>
          simp [hd, hp, isFailureOutcome]
        | updated cnt =>
          simp [hd, hp, isFailureOutcome]
        | conflict a b =>
          simp [hd, hp, isFailureOutcome]
          omega

theorem lookupRepo_setLastSync (l : List (String × RepositoryConfig))
    (n : String) (now : Timestamp) (m : String) :
    lookupRepo (setLastSync l n now) m =
      (lookupRepo l m).map
        (fun c => if n = m then { c with last_sync := some now } else c) := by
  induction l with
  | nil => simp [setLastSync, lookupRepo]
  | cons kv rest ih =>
    obtain ⟨k, v⟩ := kv
    by_cases hk : k = n
    · by_cases hm : k = m
      · have hnm : n = m := hk.symm.trans hm
        simp [setLastSync, lookupRepo, hk, hm, hnm]
      · have hnm : ¬(n = m) := fun h => hm (hk.trans h)
        simp [setLastSync, lookupRepo, hk, hm, hnm, ih]
    · by_cases hm : k = m
      · have hnm : ¬(n = m) := fun h => hk (hm.trans h.symm)
        have hmn : ¬(m = n) := fun h => hnm h.symm
        simp [setLastSync, lookupRepo, hm, hmn, hnm]
      · simp [setLastSync, lookupRepo, hk, hm, ih]

theorem lookupRepo_updateLastSync (reg : WorkspaceRegistry) (n : String)
    (now : Timestamp) (m : String) :
    lookupRepo (updateLastSync reg n now).repositories m =
      (lookupRepo reg.repositories m).map
        (fun c => if n = m then { c with last_sync := some now } else c) := by
  unfold updateLastSync
  rcases hn : lookupRepo reg.repositories n with _ | c
  · rcases hnm : (decide (n = m) : Bool) with _ | _
    · have : ¬(n = m) := of_decide_eq_false hnm
      simp [hn, this]
    · have heq : n = m := of_decide_eq_true hnm
      subst heq
      simp [hn]
  · simp [hn, lookupRepo_setLastSync]

theorem syncLoop_lookup (ws : String) (dirExists : String → Bool)
    (probe : String → Except String SyncResult) (now : Timestamp)
    (repos : List (String × RepositoryConfig)) (st : SyncState) (name : String) :
    lookupRepo (syncLoop ws dirExists probe now repos st).registry.repositories name =
      (lookupRepo st.registry.repositories name).map
        (fun c => if repos.any (entryTouches ws dirExists probe name)
                  then { c with last_sync := some now } else c) := by
  induction repos generalizing st with
  | nil => simp [syncLoop]
  | cons e rest ih =>
    rw [syncLoop, List.foldl_cons, ← syncLoop, ih, List.any_cons]
    rcases hd : dirExists (joinPath ws e.2.path) with _ | _
    · have hstep : syncStep ws dirExists probe now st e =
          { st with errorCount := st.errorCount + 1 } := by
        simp [syncStep, hd]
      have ht : entryTouches ws dirExists probe name e = false := by
        simp [entryTouches, hd]
      rw [hstep, ht]
      simp only [Bool.false_or]
    · rcases hp : probe (joinPath ws e.2.path) with msg | r
      · have hstep : syncStep ws dirExists probe now st e =
            { st with errorCount := st.errorCount + 1 } := by
          simp [syncStep, hd, hp]
        have ht : entryTouches ws dirExists probe name e = false := by
          simp [entryTouches, hd, hp, isUpdatedOutcome]
        rw [hstep, ht]
        simp only [Bool.false_or]
      · cases r with
        | upToDate =>
          have hstep : syncStep ws dirExists probe now st e =
              { st with successCount := st.successCount + 1 } := by
            simp [syncStep, hd, hp]
          have ht : entryTouches ws dirExists probe name e = false := by
            simp [entryTouches, hd, hp, isUpdatedOutcome]
          rw [hstep, ht]
          simp only [Bool.false_or]
        | conflict a b =>
          have hstep : syncStep ws dirExists probe now st e =
              { st with errorCount := st.errorCount + 1 } := by
            simp [syncStep, hd, hp]
          have ht : entryTouches ws dirExists probe name e = false := by
            simp [entryTouches, hd, hp, isUpdatedOutcome]
          rw [hstep, ht]
          simp only [Bool.false_or]
        | updated cnt =>
          have hstep : syncStep ws dirExists probe now st e =
              { st with successCount := st.successCount + 1,
                        registry := updateLastSync st.registry e.1 now } := by
            simp [syncStep, hd, hp]
          have ht : entryTouches ws dirExists probe name e = (e.1 == name) := by
            simp [entryTouches, hd, hp, isUpdatedOutcome]
          rw [hstep, ht]
          simp only [lookupRepo_updateLastSync, Option.map_map]
          cases hl : lookupRepo st.registry.repositories name with
          | none => simp
          | some c =>
            by_cases hb : e.1 = name
            · have hbeq : (e.1 == name) = true := by simp [hb]
              simp only [hbeq, Bool.true_or]
              simp [hb]
            · have hbeq : (e.1 == name) = false := by simp [hb]
              simp only [hbeq, Bool.false_or]
              simp [hb]

/-- Record for the C3 counterexample, with `last_sync` unset. -/
def c3Cfg : RepositoryConfig :=
  { path := "ra", url := "ua", added_at := 0, last_sync := none, tags := [] }

/-- Registry for the C3 counterexample. -/
def c3Reg : WorkspaceRegistry :=
  { version := "1.0", created_at := 0, updated_at := 0, repositories := [("a", c3Cfg)] }

/-- C3 counterexample: a batch run over one repository whose pull outcome is
`UpToDate` counts it as a success but leaves its `last_sync` untouched (still
unset, not refreshed to the current time): only `Updated` refreshes it. -/
theorem sync_upToDate_does_not_refresh_lastSync :
    (syncLoop "w" (fun _ => true) (fun _ => .ok .upToDate) 9
        [("a", c3Cfg)] ⟨0, 0, c3Reg⟩).successCount = 1 ∧
      lookupRepo (syncLoop "w" (fun _ => true) (fun _ => .ok .upToDate) 9
        [("a", c3Cfg)] ⟨0, 0, c3Reg⟩).registry.repositories "a" = some c3Cfg ∧
      c3Cfg.last_sync = none :=
  ⟨rfl, rfl, rfl⟩

/-- C3 (amended): after a batch reconciliation, a record's `last_sync` is set
to the current time exactly when some processed entry bearing its name had
outcome `Updated` with its directory present; it is left untouched when the
outcome was `UpToDate`, `Conflict`, a failed pull, or the directory was
missing; and the record's `path`, `url`, `added_at` and `tags` fields are
never changed by reconciliation. -/
theorem sync_lastSync_refreshed_exactly_on_updated (ws : String)
    (dirExists : String → Bool) (probe : String → Except String SyncResult)
    (now : Timestamp) (repos : List (String × RepositoryConfig))
    (reg : WorkspaceRegistry) (name : String) :
    lookupRepo (syncLoop ws dirExists probe now repos ⟨0, 0, reg⟩).registry.repositories name =
      (lookupRepo reg.repositories name).map
        (fun c =>
          { c with last_sync :=
              if repos.any (entryTouches ws dirExists probe name) then some now
              else c.last_sync }) := by
  rw [syncLoop_lookup]
  cases lookupRepo reg.repositories name with
  | none => simp
  | some c =>
    by_cases h : repos.any (entryTouches ws dirExists probe name) = true
    · simp [h]
    · rw [Bool.not_eq_true] at h
      simp [h]

/-- Directory predicate for the C4 counterexample: the workspace and the
first and third checkouts exist, the second is missing. -/
def c4Dirs : String → Bool := fun p => p == "w" || p == "w/r1" || p == "w/r3"

/-- The three-repository batch for the C4 counterexample. -/
def c4Repos : List (String × RepositoryConfig) :=
  [("a", { path := "r1", url := "u1", added_at := 0, last_sync := none, tags := [] }),
   ("b", { path := "r2", url := "u2", added_at := 0, last_sync := none, tags := [] }),
   ("c", { path := "r3", url := "u3", added_at := 0, last_sync := none, tags := [] })]

/-- Registry for the C4 counterexample. -/
def c4Reg : WorkspaceRegistry :=
  { version := "1.0", created_at := 0, updated_at := 0, repositories := c4Repos }

/-- C4 counterexample: over three repositories where the second is missing on
disk (pulls succeeding elsewhere), the run still processes the third — two
successes — but the missing repository is counted in the failure counter:
the result is successes = 2 and failures = 1, not failures = 0; there is no
separate `Missing` outcome distinct from failure. -/
theorem sync_missing_is_counted_as_failure :
    (syncLoop "w" c4Dirs (fun _ => .ok .upToDate) 9 c4Repos ⟨0, 0, c4Reg⟩).successCount = 2 ∧
      (syncLoop "w" c4Dirs (fun _ => .ok .upToDate) 9 c4Repos ⟨0, 0, c4Reg⟩).errorCount = 1 :=
  ⟨rfl, rfl⟩

/-- C4 (amended): a record whose directory is absent on disk is skipped (its
pull is never consulted) and counted in the failure counter, and every later
record in the batch is still processed: over any batch the success counter
equals the number of entries whose directory exists with outcome
`UpToDate`/`Updated`, and the failure counter equals the number of entries
that are missing on disk or whose outcome was `Conflict` or a failed pull;
in the three-repository scenario with the second missing this yields
successes = 2 and failures = 1. -/
theorem sync_batch_counts (ws : String) (dirExists : String → Bool)
    (probe : String → Except String SyncResult) (now : Timestamp)
    (repos : List (String × RepositoryConfig)) (reg : WorkspaceRegistry) :
    (syncLoop ws dirExists probe now repos ⟨0, 0, reg⟩).successCount =
        repos.countP (entrySucceeds ws dirExists probe) ∧
      (syncLoop ws dirExists probe now repos ⟨0, 0, reg⟩).errorCount =
        repos.countP (entryFails ws dirExists probe) := by
  constructor
  · rw [syncLoop_successCount]
    simp
  · rw [syncLoop_errorCount]
    simp

/-- C10: a batch sync run attempts to persist the registry exactly when some
repository's outcome was `UpToDate` or `Updated`; when no repository
succeeded the on-disk registry file is left unchanged, and when one did the
registry file is overwritten with the post-loop registry. -/
theorem sync_persists_iff_some_success (ws : String) (dirExists : String → Bool)
    (probe : String → Except String SyncResult) (files : FileStore)
    (reg : WorkspaceRegistry) (now : Timestamp)
    (repos : List (String × RepositoryConfig))
    (hws : dirExists ws = true) :
    ∃ r, syncRun ws dirExists probe files reg now repos = .ok r ∧
      (r.saveAttempted = true ↔ ∃ e ∈ repos, entrySucceeds ws dirExists probe e = true) ∧
      (r.saveAttempted = false → r.files = files) ∧
      (r.saveAttempted = true →
        r.files (joinPath ws registryFileName) =
          some { (syncLoop ws dirExists probe now repos ⟨0, 0, reg⟩).registry with
                   updated_at := now }) := by
  have hcount : (syncLoop ws dirExists probe now repos ⟨0, 0, reg⟩).successCount =
      repos.countP (entrySucceeds ws dirExists probe) := by
    rw [syncLoop_successCount]
    simp
  by_cases hpos : 0 < (syncLoop ws dirExists probe now repos ⟨0, 0, reg⟩).successCount
  · have hex : ∃ e ∈ repos, entrySucceeds ws dirExists probe e = true := by
      rw [← List.countP_pos_iff, ← hcount]
      exact hpos
    have hrun : syncRun ws dirExists probe files reg now repos =
        .ok ⟨(syncLoop ws dirExists probe now repos ⟨0, 0, reg⟩).successCount,
             (syncLoop ws dirExists probe now repos ⟨0, 0, reg⟩).errorCount,
             { (syncLoop ws dirExists probe now repos ⟨0, 0, reg⟩).registry with
                 updated_at := now },
             fun p => if p = joinPath ws registryFileName
                      then some { (syncLoop ws dirExists probe now repos ⟨0, 0, reg⟩).registry with
                                    updated_at := now }
                      else files p,
             true⟩ := by
      simp only [syncRun]
      rw [if_pos hpos]
      simp [saveRegistry, hws]
    refine ⟨_, hrun, ?_, ?_, ?_⟩
    · simpa using hex
    · intro h
      simp at h
    · intro _
      simp
  · have hzero : (syncLoop ws dirExists probe now repos ⟨0, 0, reg⟩).successCount = 0 :=
      Nat.eq_zero_of_not_pos hpos
    have hnone : ¬∃ e ∈ repos, entrySucceeds ws dirExists probe e = true := by
      rw [← List.countP_pos_iff, ← hcount]
      omega
    have hrun : syncRun ws dirExists probe files reg now repos =
        .ok ⟨(syncLoop ws dirExists probe now repos ⟨0, 0, reg⟩).successCount,
             (syncLoop ws dirExists probe now repos ⟨0, 0, reg⟩).errorCount,
             (syncLoop ws dirExists probe now repos ⟨0, 0, reg⟩).registry,
             files, false⟩ := by
      simp only [syncRun]
      rw [if_neg hpos]
    refine ⟨_, hrun, ?_, ?_, ?_⟩
    · simpa using hnone
    · intro _
      rfl
    · intro h
      simp at h

/-- Witness for C10 at a one-repository batch whose pull is up to date: the
save is attempted and the registry file is written. -/
theorem sync_persists_iff_some_success_witness :
    ∃ r, syncRun "w" (fun _ => true) (fun _ => .ok .upToDate) (fun _ => none)
        c3Reg 9 [("a", c3Cfg)] = .ok r ∧
      (r.saveAttempted = true ↔
        ∃ e ∈ [("a", c3Cfg)], entrySucceeds "w" (fun _ => true) (fun _ => .ok .upToDate) e = true) ∧
      (r.saveAttempted = false → r.files = (fun _ => none)) ∧
      (r.saveAttempted = true →
        r.files (joinPath "w" registryFileName) =
          some { (syncLoop "w" (fun _ => true) (fun _ => .ok .upToDate) 9
                    [("a", c3Cfg)] ⟨0, 0, c3Reg⟩).registry with updated_at := 9 }) :=
  sync_persists_iff_some_success "w" (fun _ => true) (fun _ => .ok .upToDate)
    (fun _ => none) c3Reg 9 [("a", c3Cfg)] rfl

/-- Lowercased character data of a string (matching is case-insensitive by
default). -/
def lowerData (s : String) : List Char := s.data.map Char.toLower

/-- Modelled from the spec: the scoring function of the fuzzy matcher. The
`SkimMatcherV2` scorer of the external fuzzy_matcher crate is not part of
this repository's sources; following the spec's words, the score rewards
contiguity and proximity to the start of the name: an exact match scores in
the highest band, a contiguous-substring match in the middle band, a
sub-sequence-only match in the lowest band, each with a small bonus for a
match starting near the front of the name. -/
def fuzzyScoreNat (n p : List Char) : Nat :=
  (if p = n then 20 else if listInfixB p n then 10 else 0) +
  (match p with
   | [] => 0
   | c :: _ =>
     let pos := n.findIdx fun b => b == c
     if 3 ≤ pos then 0 else 3 - pos)

/-- The score as the `i64` the crate returns. -/
def fuzzyScore (n p : List Char) : Int := fuzzyScoreNat n p

/-- Modelled from the spec: `fuzzy_match(name, pattern)` of the external
fuzzy_matcher crate, which is not part of this repository's sources. A
pattern matches a name when every pattern character appears in the name in
order (sub-sequence matching, case-insensitive by default); then the match
scores via `fuzzyScore`, and otherwise there is no score. -/
def fuzzyMatch (name pattern : String) : Option Int :=
  if (lowerData pattern).isSublist (lowerData name) then
    some (fuzzyScore (lowerData name) (lowerData pattern))
  else none

/-- Embeds `SearchResult` from src/search/mod.rs. -/
structure SearchResult where
  name : String
  repo_config : RepositoryConfig
  score : Int
deriving DecidableEq

/-- Descending-score ordering used by `results.sort_by(|a, b|
b.score.cmp(&a.score))`. -/
def scoreGE (a b : SearchResult) : Prop := b.score ≤ a.score

instance : DecidableRel scoreGE :=
  fun a b => inferInstanceAs (Decidable (b.score ≤ a.score))

instance : IsTotal SearchResult scoreGE :=
  ⟨fun a b => le_total b.score a.score⟩

instance : IsTrans SearchResult scoreGE :=
  ⟨fun _ _ _ hab hbc => hbc.trans hab⟩

/-- The filtered candidate list of `FuzzySearch::search` before sorting:
every repository whose name the pattern matches, in input order, paired with
its score (the `filter_map` of src/search/mod.rs lines 31-41). -/
def matchedList (repos : List (String × RepositoryConfig)) (pattern : String) :
    List SearchResult :=
  repos.filterMap fun nc => (fuzzyMatch nc.1 pattern).map fun s => ⟨nc.1, nc.2, s⟩

/-- Embeds `FuzzySearch::search` (src/search/mod.rs lines 30-47): filter-map
then a stable sort by descending score. Rust's `sort_by` is a stable sort,
and a stable sort's output is uniquely determined by the comparator and the
input order, so it is modelled by insertion sort over `scoreGE`. -/
def search (repos : List (String × RepositoryConfig)) (pattern : String) :
    List SearchResult :=
  List.insertionSort scoreGE (matchedList repos pattern)

theorem listPrefixB_refl (p : List Char) : listPrefixB p p = true := by
  induction p with
  | nil => rfl
  | cons a as ih => simp [listPrefixB, ih]

theorem listInfixB_refl (p : List Char) : listInfixB p p = true := by
  cases p with
  | nil => rfl
  | cons a as => simp [listInfixB, listPrefixB_refl]

theorem fuzzyScoreNat_bonus_le (n p : List Char) :
    (match p with
     | [] => 0
     | c :: _ =>
       let pos := n.findIdx fun b => b == c
       if 3 ≤ pos then 0 else 3 - pos) ≤ 3 := by
  cases p with
  | nil => exact Nat.zero_le 3
  | cons c cs =>
    by_cases h : 3 ≤ n.findIdx fun b => b == c
    · simp [h]
    · simp [h]

theorem twenty_le_fuzzyScore_of_eq (n p : List Char) (h : p = n) :
    20 ≤ fuzzyScore n p := by
  have : 20 ≤ fuzzyScoreNat n p := by
    unfold fuzzyScoreNat
    rw [if_pos h]
    omega
  unfold fuzzyScore
  exact_mod_cast this

theorem fuzzyScore_le_three_of_not_infix (n p : List Char)
    (h : listInfixB p n = false) :
    fuzzyScore n p ≤ 3 := by
  have hne : p ≠ n := by
    intro he
    rw [he, listInfixB_refl] at h
    exact Bool.true_eq_false.mp h
  have : fuzzyScoreNat n p ≤ 3 := by
    unfold fuzzyScoreNat
    rw [if_neg hne, if_neg (by simp [h])]
    have := fuzzyScoreNat_bonus_le n p
    omega
  unfold fuzzyScore
  exact_mod_cast this

theorem mem_search_iff (repos : List (String × RepositoryConfig)) (q : String)
    (r : SearchResult) :
    r ∈ search repos q ↔
      (r.name, r.repo_config) ∈ repos ∧ fuzzyMatch r.name q = some r.score := by
  unfold search
  rw [(List.perm_insertionSort scoreGE (matchedList repos q)).mem_iff]
  unfold matchedList
  rw [List.mem_filterMap]
  constructor
  · rintro ⟨nc, hnc, hmap⟩
    rcases hs : fuzzyMatch nc.1 q with _ | s
    · rw [hs] at hmap
      simp at hmap
    · rw [hs] at hmap
      have hr : (⟨nc.1, nc.2, s⟩ : SearchResult) = r := by
        simpa using hmap
      subst hr
      exact ⟨hnc, hs⟩
  · rintro ⟨hin, hmatch⟩
    refine ⟨(r.name, r.repo_config), hin, ?_⟩
    rw [hmatch]
    rfl

theorem filter_score_orderedInsert (s : Int) (x : SearchResult)
    (l : List SearchResult) :
    (List.orderedInsert scoreGE x l).filter (fun r => r.score == s) =
      if x.score == s then x :: l.filter (fun r => r.score == s)
      else l.filter (fun r => r.score == s) := by
  induction l with
  | nil => simp [List.orderedInsert, List.filter_cons]
  | cons y ys ih =>
    by_cases hge : scoreGE x y
    · rw [List.orderedInsert, if_pos hge]
      simp only [List.filter_cons]
    · rw [List.orderedInsert, if_neg hge]
      have hlt : x.score < y.score := by
        unfold scoreGE at hge
        omega
      simp only [List.filter_cons]
      by_cases hx : (x.score == s) = true
      · have hxs : x.score = s := by
          simpa using hx
        have hy : (y.score == s) = false := by
          simp only [beq_eq_false_iff_ne, ne_eq]
          omega
        simp only [hy, Bool.false_eq_true, if_false, ih, hx, if_true]
      · by_cases hy : (y.score == s) = true
        · simp [hy, ih, hx]
        · simp [hy, ih, hx]

theorem filter_score_insertionSort (s : Int) (l : List SearchResult) :
    (List.insertionSort scoreGE l).filter (fun r => r.score == s) =
      l.filter (fun r => r.score == s) := by
  induction l with
  | nil => rfl
  | cons x xs ih =>
    rw [List.insertionSort, filter_score_orderedInsert, ih, List.filter_cons]

/-- C7: `search` returns exactly the candidates whose name the query matches
as a sub-sequence of lowercased characters (non-matching entries are
excluded, not ranked last), ordered by descending score, and for every score
the entries carrying it appear in their input order (stable sort: the
filtered output at each score equals the filtered pre-sort candidate list,
which is in input order). The sub-sequence matcher is modelled from the
spec, as the external fuzzy_matcher crate is not part of this repository's
sources. -/
theorem search_filter_sort_stable (repos : List (String × RepositoryConfig))
    (q : String) :
    (∀ n rc, (∃ s, (⟨n, rc, s⟩ : SearchResult) ∈ search repos q) ↔
        ((n, rc) ∈ repos ∧ (lowerData q).Sublist (lowerData n))) ∧
      List.Sorted scoreGE (search repos q) ∧
      (∀ s : Int, (search repos q).filter (fun r => r.score == s) =
        (matchedList repos q).filter (fun r => r.score == s)) := by
  refine ⟨fun n rc => ?_, ?_, fun s => ?_⟩
  · constructor
    · rintro ⟨s, hs⟩
      have h := (mem_search_iff repos q ⟨n, rc, s⟩).mp hs
      refine ⟨h.1, ?_⟩
      have hm := h.2
      unfold fuzzyMatch at hm
      by_cases hsub : (lowerData q).isSublist (lowerData n) = true
      · exact List.isSublist_iff_sublist.mp hsub
      · rw [if_neg hsub] at hm
        simp at hm
    · rintro ⟨hin, hsub⟩
      have hsubB : (lowerData q).isSublist (lowerData n) = true :=
        List.isSublist_iff_sublist.mpr hsub
      refine ⟨fuzzyScore (lowerData n) (lowerData q), ?_⟩
      exact (mem_search_iff repos q _).mpr ⟨hin, by simp [fuzzyMatch, hsubB]⟩
  · exact List.sorted_insertionSort scoreGE (matchedList repos q)
  · exact filter_score_insertionSort s (matchedList repos q)

/-- The query equals the candidate's full name, up to the default case
folding. -/
def exactMatch (q n : String) : Prop := lowerData q = lowerData n

/-- The query does not occur contiguously in the name: any match it has
there is only as a non-contiguous sub-sequence. -/
def noContigOccurrence (q n : String) : Prop :=
  listInfixB (lowerData q) (lowerData n) = false

instance (q n : String) : Decidable (exactMatch q n) :=
  inferInstanceAs (Decidable (lowerData q = lowerData n))

instance (q n : String) : Decidable (noContigOccurrence q n) :=
  inferInstanceAs (Decidable (listInfixB (lowerData q) (lowerData n) = false))

theorem mem_search_exact_score (repos : List (String × RepositoryConfig))
    (q : String) (r : SearchResult) (hmem : r ∈ search repos q)
    (hex : exactMatch q r.name) : 20 ≤ r.score := by
  have h := ((mem_search_iff repos q r).mp hmem).2
  unfold fuzzyMatch at h
  unfold exactMatch at hex
  rw [hex] at h
  rw [if_pos (List.isSublist_iff_sublist.mpr (List.Sublist.refl _))] at h
  have hb := twenty_le_fuzzyScore_of_eq (lowerData r.name) (lowerData r.name) rfl
  rw [Option.some.inj h] at hb
  exact hb

theorem mem_search_noncontig_score (repos : List (String × RepositoryConfig))
    (q : String) (r : SearchResult) (hmem : r ∈ search repos q)
    (hnc : noContigOccurrence q r.name) : r.score ≤ 3 := by
  have h := ((mem_search_iff repos q r).mp hmem).2
  unfold fuzzyMatch at h
  unfold noContigOccurrence at hnc
  by_cases hsub : (lowerData q).isSublist (lowerData r.name) = true
  · rw [if_pos hsub] at h
    have hb := fuzzyScore_le_three_of_not_infix (lowerData r.name) (lowerData q) hnc
    rw [Option.some.inj h] at hb
    exact hb
  · rw [if_neg hsub] at h
    simp at h

/-- Shared record for the C6 concrete scenario. -/
def c6Cfg : RepositoryConfig :=
  { path := "x/a", url := "u", added_at := 0, last_sync := none, tags := [] }

/-- The candidate set of the C6 scenario: names "a", "ab", "ba". -/
def c6Repos : List (String × RepositoryConfig) :=
  [("a", c6Cfg), ("ab", c6Cfg), ("ba", c6Cfg)]

/-- Candidates for the C6 witness: an exact match and a candidate that
matches only as a non-contiguous sub-sequence. -/
def c6wRepos : List (String × RepositoryConfig) :=
  [("ab", c6Cfg), ("axb", c6Cfg)]

/-- C6 counterexample: the query "a" over the names ["a", "ab", "ba"]
returns all three candidates — "ba" is not excluded, because the character
'a' does occur in "ba" and a one-character query trivially appears in order
— so the claimed result ["a", "ab"] is wrong (though "a" is ranked first). -/
theorem search_example_includes_ba :
    (search c6Repos "a").map (fun r => r.name) = ["a", "ab", "ba"] ∧
      (search c6Repos "a").map (fun r => r.name) ≠ ["a", "ab"] := by
  constructor
  · decide
  · decide

/-- C6 (amended): a query equal (case-insensitively) to a candidate's full
name always ranks that candidate strictly before any candidate the query
matches only as a non-contiguous sub-sequence; a query containing a
character not present in a name excludes that name; and the query "a" over
the names ["a", "ab", "ba"] returns all three, "a" ranked first and "ba"
included last (its character 'a' does occur, so it matches). The matcher is
modelled from the spec, as the external fuzzy_matcher crate is not part of
this repository's sources. -/
theorem search_exact_outranks_noncontiguous :
    (∀ (repos : List (String × RepositoryConfig)) (q : String) (i j : Nat)
      (hi : i < (search repos q).length) (hj : j < (search repos q).length),
      exactMatch q ((search repos q).get ⟨i, hi⟩).name →
      noContigOccurrence q ((search repos q).get ⟨j, hj⟩).name → i < j) ∧
    (∀ (repos : List (String × RepositoryConfig)) (q n : String)
      (rc : RepositoryConfig) (sc : Int) (c : Char), c ∈ lowerData q →
      c ∉ lowerData n → (⟨n, rc, sc⟩ : SearchResult) ∉ search repos q) ∧
    (search c6Repos "a").map (fun r => r.name) = ["a", "ab", "ba"] := by
  refine ⟨?_, ?_, by decide⟩
  · intro repos q i j hi hj hex hnc
    have hmi := List.get_mem (search repos q) i hi
    have hmj := List.get_mem (search repos q) j hj
    have hsi := mem_search_exact_score repos q _ hmi hex
    have hsj := mem_search_noncontig_score repos q _ hmj hnc
    by_contra hij
    have hle : ((search repos q).get ⟨i, hi⟩).score ≤
        ((search repos q).get ⟨j, hj⟩).score := by
      rcases Nat.lt_or_ge j i with hlt | hge
      · have hs := List.sorted_insertionSort scoreGE (matchedList repos q)
        have hrel := hs.rel_get_of_lt
          (show (⟨j, hj⟩ : Fin (search repos q).length) < ⟨i, hi⟩ from hlt)
        exact hrel
      · have : i = j := Nat.le_antisymm hge (Nat.le_of_not_lt hij)
        subst this
        rfl
    omega
  · intro repos q n rc sc c hcq hcn hmem
    have h := ((mem_search_iff repos q _).mp hmem).2
    unfold fuzzyMatch at h
    by_cases hsub : (lowerData q).isSublist (lowerData n) = true
    · exact hcn ((List.isSublist_iff_sublist.mp hsub).subset hcq)
    · rw [if_neg hsub] at h
      simp at h

/-- Witness for the amended C6 theorem: the exact match "ab" precedes the
non-contiguous match "axb" for query "ab", and the name "xy" (lacking the
query character 'a') is excluded for query "a". -/
theorem search_exact_outranks_noncontiguous_witness :
    (0 < 1) ∧ (⟨"xy", c6Cfg, 0⟩ : SearchResult) ∉ search [("xy", c6Cfg)] "a" :=
  ⟨search_exact_outranks_noncontiguous.1 c6wRepos "ab" 0 1 (by decide) (by decide)
      (by decide) (by decide),
    search_exact_outranks_noncontiguous.2.1 [("xy", c6Cfg)] "a" "xy" c6Cfg 0 'a'
      (by decide) (by decide)⟩

/-- Key events consumed by the selector; `other` stands for every key that
the `match` of src/search/mod.rs lines 105-123 ignores (and for non-key
events, which the `if let` skips with the same effect). -/
inductive SelKey where
  | up
  | down
  | enter
  | esc
  | other
deriving DecidableEq

/-- One loop iteration's worth of scripted terminal I/O: the redraw fails,
the redraw succeeds but the input read fails, or a key event arrives. -/
inductive LoopIO where
  | drawFail (msg : String)
  | readFail (msg : String)
  | key (k : SelKey)
deriving DecidableEq

/-- Outcome of `interactive_select`: `Ok(Some _)` on Confirm or a single
candidate, `Ok(None)` on Cancel or an empty candidate list, an I/O error
propagated by `?`, or `blocked` when the script ends while the loop is
still waiting for input (the real loop would block on `event::read`). -/
inductive SelOutcome where
  | ok (r : Option SearchResult)
  | ioErr (msg : String)
  | blocked
deriving DecidableEq

/-- Observable result of a selector session: the outcome, whether the
terminal is in raw mode at the moment the function returns (for `blocked`:
at the end of the script), whether raw mode was ever entered, and how many
scripted I/O steps were consumed. -/
structure SelResult where
  outcome : SelOutcome
  rawAtEnd : Bool
  enteredRaw : Bool
  consumed : Nat
deriving DecidableEq

/-- The interaction loop of `interactive_select` (src/search/mod.rs lines
62-125). Each iteration redraws the candidate list and reads one event; an
I/O failure in either propagates through `?` while raw mode is still
enabled. Enter breaks with the candidate under the cursor and Esc with
none, after which `disable_raw_mode` runs (line 128); the final clear-screen
redraw happens after raw mode is already disabled, so it cannot affect the
raw-mode state and is not scripted. Up moves the cursor up unless at 0,
Down moves it down unless at the last row, other keys are ignored. -/
def selectLoop (cands : List SearchResult) : Nat → List LoopIO → SelResult
  | _, [] => ⟨.blocked, true, true, 0⟩
  | sel, step :: rest =>
    match step with
    | .drawFail msg => ⟨.ioErr msg, true, true, 1⟩
    | .readFail msg => ⟨.ioErr msg, true, true, 1⟩
    | .key k =>
      match k with
      | .enter => ⟨.ok (cands.get? sel), false, true, 1⟩
      | .esc => ⟨.ok none, false, true, 1⟩
      | .up =>
        let r := selectLoop cands (if 0 < sel then sel - 1 else sel) rest
        { r with consumed := r.consumed + 1 }
      | .down =>
        let r := selectLoop cands (if sel < cands.length - 1 then sel + 1 else sel) rest
        { r with consumed := r.consumed + 1 }
      | .other =>
        let r := selectLoop cands sel rest
        { r with consumed := r.consumed + 1 }

/-- Embeds `FuzzySearch::interactive_select` (src/search/mod.rs lines
49-138): zero candidates return `Ok(None)` before any drawing; exactly one
candidate is returned immediately before raw mode is entered or any event
read; otherwise raw mode is enabled and the loop runs with the cursor at 0. -/
def interactiveSelect (cands : List SearchResult) (io : List LoopIO) : SelResult :=
  if cands.isEmpty then ⟨.ok none, false, false, 0⟩
  else if cands.length = 1 then ⟨.ok cands.head?, false, false, 0⟩
  else selectLoop cands 0 io

theorem selectLoop_raw_iff (cands : List SearchResult) (sel : Nat)
    (io : List LoopIO) :
    (selectLoop cands sel io).rawAtEnd = false ↔
      ∃ r, (selectLoop cands sel io).outcome = .ok r := by
  induction io generalizing sel with
  | nil => simp [selectLoop]
  | cons step rest ih =>
    cases step with
    | drawFail msg => simp [selectLoop]
    | readFail msg => simp [selectLoop]
    | key k =>
      cases k with
      | enter => simp [selectLoop]
      | esc => simp [selectLoop]
      | up =>
        simp only [selectLoop]
        exact ih _
      | down =>
        simp only [selectLoop]
        exact ih _
      | other =>
        simp only [selectLoop]
        exact ih _

/-- Record for the C8/C9 concrete sessions. -/
def c8Cfg : RepositoryConfig :=
  { path := "p", url := "u", added_at := 0, last_sync := none, tags := [] }

/-- First candidate of the C8 session. -/
def c8a : SearchResult := { name := "a", repo_config := c8Cfg, score := 0 }

/-- Second candidate of the C8 session. -/
def c8b : SearchResult := { name := "b", repo_config := c8Cfg, score := 0 }

/-- C8 counterexample: with two candidates, a session whose first input read
fails returns the I/O error through `?` with the terminal still in raw mode:
`disable_raw_mode` on line 128 is only reached after the loop breaks, so the
error exit path does not restore the terminal. -/
theorem interactive_select_io_failure_leaves_raw :
    (interactiveSelect [c8a, c8b] [.readFail "read error"]).outcome =
        .ioErr "read error" ∧
      (interactiveSelect [c8a, c8b] [.readFail "read error"]).rawAtEnd = true :=
  ⟨rfl, rfl⟩

/-- C8 (amended): a session that returns normally — Confirm, Cancel, or the
zero/one-candidate shortcuts — always has the terminal back in cooked mode,
but a session that exits with an I/O failure during a redraw or input read
returns with the terminal still in raw mode. -/
theorem interactive_select_raw_restoration :
    (∀ (cands : List SearchResult) (io : List LoopIO) (r : Option SearchResult),
      (interactiveSelect cands io).outcome = .ok r →
      (interactiveSelect cands io).rawAtEnd = false) ∧
    (∀ (cands : List SearchResult) (io : List LoopIO) (msg : String),
      (interactiveSelect cands io).outcome = .ioErr msg →
      (interactiveSelect cands io).rawAtEnd = true) := by
  constructor
  · intro cands io r h
    unfold interactiveSelect at h ⊢
    by_cases h0 : cands.isEmpty
    · simp [h0]
    · by_cases h1 : cands.length = 1
      · simp [h0, h1]
      · simp only [h0, h1, if_false, Bool.false_eq_true] at h ⊢
        exact (selectLoop_raw_iff cands 0 io).mpr ⟨r, h⟩
  · intro cands io msg h
    unfold interactiveSelect at h ⊢
    by_cases h0 : cands.isEmpty
    · simp [h0] at h
    · by_cases h1 : cands.length = 1
      · simp [h0, h1] at h
      · simp only [h0, h1, if_false, Bool.false_eq_true] at h ⊢
        rcases hb : (selectLoop cands 0 io).rawAtEnd with _ | _
        · obtain ⟨r, hr⟩ := (selectLoop_raw_iff cands 0 io).mp hb
          rw [hr] at h
          cases h
        · rfl

/-- Witness for the amended C8 theorem: a Confirm session ends in cooked
mode, and a session with a failing redraw ends in raw mode. -/
theorem interactive_select_raw_restoration_witness :
    (interactiveSelect [c8a, c8b] [.key .enter]).rawAtEnd = false ∧
      (interactiveSelect [c8a, c8b] [.drawFail "draw error"]).rawAtEnd = true :=
  ⟨interactive_select_raw_restoration.1 [c8a, c8b] [.key .enter] (some c8a) rfl,
    interactive_select_raw_restoration.2 [c8a, c8b] [.drawFail "draw error"]
      "draw error" rfl⟩

/-- C9: invoked with zero candidates the selector returns no selection
without drawing, entering raw mode, or consuming any input; invoked with
exactly one candidate it returns that candidate immediately, likewise
without entering raw mode or reading any input event. -/
theorem interactive_select_trivial_cases (c : SearchResult) (io : List LoopIO) :
    interactiveSelect [] io =
        { outcome := .ok none, rawAtEnd := false, enteredRaw := false, consumed := 0 } ∧
      interactiveSelect [c] io =
        { outcome := .ok (some c), rawAtEnd := false, enteredRaw := false, consumed := 0 } :=
  ⟨rfl, rfl⟩

end ProjectMan
